import Mathlib

/-!
Formal model of the Bamboo-Budget travel-expense tracker.

JavaScript strings are modelled as lists of characters (`Str`), JavaScript
numbers as rationals (`ℚ`), and the remote/local stores as explicit state
that is passed through each operation.  Each definition mirrors one function
of the TypeScript source:

* `AddExpense`     — src/components/AddExpenseModal.tsx
  (`formatItemsToString`, `parseStringToItems`, `handleSave`)
* `StorageLocal`   — src/services/storageService.ts
  (`migrateExpenses`, `getAllExpenses`, `getExpensesForTrip`, `deleteTrip`,
   `saveExpense`)
* `FirestoreStore` — the Firestore persistence adapter
  (`fetchExpensesForTrip`, `saveExpense`, `deleteTrip`)
* `Gemini`         — src/services/geminiService.ts
  (`analyzeReceipt`, `fetchExchangeRate`, `getRateFromCache`,
   `saveRateToCache`)
-/

/-- A JavaScript string, modelled as its list of characters. -/
abbrev Str := List Char

/-- `ExpenseItem` from src/types.ts: translated display text (`name`) and the
original receipt text (`originalName`). -/
structure ExpenseItem where
  name : Str
  originalName : Str
deriving DecidableEq, Repr

/-- `Expense` from src/types.ts.  The optional `receiptImage` is `none` when
the serialized record carries no such field. -/
structure Expense where
  id : Str
  tripId : Str
  storeName : Str
  date : Str
  items : List ExpenseItem
  originalCurrency : Str
  originalAmount : ℚ
  exchangeRate : ℚ
  totalTWD : ℚ
  paidByMe : Bool
  splitCount : ℚ
  myShareTWD : ℚ
  debtAmountTWD : ℚ
  isRepaid : Bool
  receiptImage : Option Str
deriving DecidableEq, Repr

/-- `Trip` from src/types.ts. -/
structure Trip where
  id : Str
  name : Str
  startDate : Str
  endDate : Str
  budgetTWD : Option ℚ
deriving DecidableEq, Repr

namespace AddExpense

/-- Whitespace characters removed by JavaScript `String.prototype.trim`:
the WhiteSpace and LineTerminator productions — TAB, LF, VT, FF, CR,
space, NBSP, ZWNBSP (U+FEFF), the Unicode Zs separators (U+1680,
U+2000–U+200A, U+202F, U+205F, the ideographic space U+3000) and the
line/paragraph separators U+2028/U+2029. -/
def isWS (c : Char) : Bool :=
  c = ' ' || c = '\t' || c = '\n' || c = '\r' || c = '\x0b' || c = '\x0c' ||
    c = '\u00A0' || c = '\u1680' || ('\u2000' ≤ c && c ≤ '\u200A') ||
    c = '\u2028' || c = '\u2029' || c = '\u202F' || c = '\u205F' ||
    c = '\u3000' || c = '\uFEFF'

/-- Left part of `trim`: drop leading whitespace. -/
def trimL (s : Str) : Str := s.dropWhile isWS

/-- Right part of `trim`: drop trailing whitespace. -/
def trimR (s : Str) : Str := (trimL s.reverse).reverse

/-- JavaScript `s.trim()`. -/
def trim (s : Str) : Str := trimL (trimR s)

/-- Prepend a character to the first piece of a split result
(used to state the recursion of JavaScript `split`). -/
def headCons (c : Char) : List Str → List Str
  | [] => [[c]]
  | h :: t => (c :: h) :: t

/-- JavaScript `text.split(sep)` for a single-character separator:
`"".split` gives `[""]`, separators delimit possibly empty pieces. -/
def splitOnChar (sep : Char) : Str → List Str
  | [] => [[]]
  | c :: rest =>
    if c = sep then [] :: splitOnChar sep rest
    else headCons c (splitOnChar sep rest)

/-- JavaScript `line.split('||')`: scan left to right for non-overlapping
occurrences of the two-character separator. -/
def splitOnBars : Str → List Str
  | [] => [[]]
  | c :: rest =>
    if c = '|' ∧ rest.head? = some '|' then [] :: splitOnBars rest.tail
    else headCons c (splitOnBars rest)
termination_by s => s.length
decreasing_by
  · simp only [List.length_cons, List.length_tail]
    omega
  · simp only [List.length_cons]
    omega

/-- JavaScript `lines.join('\n')`. -/
def joinNl : List Str → Str
  | [] => []
  | [l] => l
  | l :: rest => l ++ '\n' :: joinNl rest

/-- The line `formatItemsToString` emits for one item: the single field when
source and translation coincide, otherwise `originalName || name`. -/
def itemLine (i : ExpenseItem) : Str :=
  if i.originalName = i.name then i.name
  else i.originalName ++ ' ' :: '|' :: '|' :: ' ' :: i.name

/-- `formatItemsToString` from AddExpenseModal.tsx: one line per item,
joined with newlines. -/
def formatItemsToString (items : List ExpenseItem) : Str :=
  joinNl (items.map itemLine)

/-- Whether a string contains two adjacent `'|'` characters, i.e. the
`'||'` separator as a substring. -/
def hasBB : Str → Bool
  | c :: d :: rest => (c = '|' && d = '|') || hasBB (d :: rest)
  | _ => false

/-- A benign item text: non-empty, free of the `'||'` separator and of
newlines, with no leading or trailing whitespace. -/
def goodText (s : Str) : Bool :=
  !s.isEmpty && !hasBB s && !s.contains '\n' &&
    !isWS (s.headD 'x') && !isWS (s.getLastD 'x')

/-- One line of `parseStringToItems`. -/
def parseLine (line : Str) : ExpenseItem :=
  match splitOnBars line with
  | p0 :: p1 :: _ => { originalName := trim p0, name := trim p1 }
  | _ => { originalName := trim line, name := trim line }

/-- `parseStringToItems` from AddExpenseModal.tsx: split on newlines, keep
lines whose trim is non-empty, parse each line. -/
def parseStringToItems (text : Str) : List ExpenseItem :=
  ((splitOnChar '\n' text).filter fun line => !(trim line).isEmpty).map parseLine

/-- The `amount` form state: a number input that may be the empty string or
an invalid (NaN) number; `Number(amount) || 0` coerces both to 0. -/
inductive AmountInput where
  | empty
  | nan
  | num (q : ℚ)
deriving DecidableEq, Repr

/-- `Number(amount) || 0` from `handleSave`. -/
def toNumber : AmountInput → ℚ
  | .empty => 0
  | .nan => 0
  | .num q => q

/-- `handleSave` from AddExpenseModal.tsx: builds the `Expense` record that
is handed to `onSave`.  `newId` stands for the fresh `uuidv4()`, and
`finalDateIso` for the already-converted ISO date string. -/
def handleSave (tripId newId : Str) (initialData : Option Expense)
    (image : Option Str) (storeName : Str) (amount : AmountInput)
    (currency finalDateIso : Str) (itemsText : Str) (rate : ℚ)
    (isSplit : Bool) (totalPeople : ℚ) : Expense :=
  let numAmount := toNumber amount
  let totalTWD := numAmount * rate
  let splitCount : ℚ := if isSplit then max 1 totalPeople else 1
  let myShareTWD := totalTWD / splitCount
  let debtAmountTWD := totalTWD - myShareTWD
  { id := (initialData.map (·.id)).getD newId
    tripId := tripId
    storeName := if storeName.isEmpty then "未命名".toList else storeName
    date := finalDateIso
    items := parseStringToItems itemsText
    originalCurrency := currency
    originalAmount := numAmount
    exchangeRate := rate
    totalTWD := totalTWD
    paidByMe := true
    splitCount := splitCount
    myShareTWD := myShareTWD
    debtAmountTWD := debtAmountTWD
    isRepaid := (initialData.map (·.isRepaid)).getD false
    receiptImage := match image with
      | some s => if s.isEmpty then none else some s
      | none => none }

end AddExpense

namespace StorageLocal

/-- The `items` field of a persisted record as JSON.parse yields it: a list
of bare strings (legacy schema), a list of two-field item objects, or a
missing/absent field. -/
inductive RawItems where
  | strs (l : List Str)
  | objs (l : List ExpenseItem)
  | missing
deriving DecidableEq, Repr

/-- A persisted Expense record before migration, as read back from the
store; all fields of `Expense` except that `items` may still be in the
legacy shape. -/
structure RawExpense where
  id : Str
  tripId : Str
  storeName : Str
  date : Str
  items : RawItems
  originalCurrency : Str
  originalAmount : ℚ
  exchangeRate : ℚ
  totalTWD : ℚ
  paidByMe : Bool
  splitCount : ℚ
  myShareTWD : ℚ
  debtAmountTWD : ℚ
  isRepaid : Bool
  receiptImage : Option Str
deriving DecidableEq, Repr

/-- The body of `migrateExpenses` for one record (storageService.ts): a
non-empty array whose first entry is a string is legacy data and every
string becomes `{name, originalName}` with both fields equal; a missing
`items` becomes `[]`; anything else is returned unchanged (an empty array
is truthy in JavaScript, so it falls through to the unchanged case). -/
def migrateExpense (e : RawExpense) : Expense :=
  let items : List ExpenseItem :=
    match e.items with
    | .strs (s :: rest) => (s :: rest).map fun itemStr =>
        { name := itemStr, originalName := itemStr }
    | .strs [] => []
    | .objs l => l
    | .missing => []
  { id := e.id, tripId := e.tripId, storeName := e.storeName, date := e.date
    items := items, originalCurrency := e.originalCurrency
    originalAmount := e.originalAmount, exchangeRate := e.exchangeRate
    totalTWD := e.totalTWD, paidByMe := e.paidByMe
    splitCount := e.splitCount, myShareTWD := e.myShareTWD
    debtAmountTWD := e.debtAmountTWD, isRepaid := e.isRepaid
    receiptImage := e.receiptImage }

/-- `migrateExpenses` from storageService.ts. -/
def migrateExpenses (es : List RawExpense) : List Expense :=
  es.map migrateExpense

/-- Serializing an already-migrated Expense and reading it back yields the
object-shaped raw record. -/
def toRaw (e : Expense) : RawExpense :=
  { id := e.id, tripId := e.tripId, storeName := e.storeName, date := e.date
    items := .objs e.items, originalCurrency := e.originalCurrency
    originalAmount := e.originalAmount, exchangeRate := e.exchangeRate
    totalTWD := e.totalTWD, paidByMe := e.paidByMe
    splitCount := e.splitCount, myShareTWD := e.myShareTWD
    debtAmountTWD := e.debtAmountTWD, isRepaid := e.isRepaid
    receiptImage := e.receiptImage }

/-- `getAllExpenses` from storageService.ts: parse the stored list and
migrate it. -/
def getAllExpenses (stored : List RawExpense) : List Expense :=
  migrateExpenses stored

/-- `getExpensesForTrip` from storageService.ts. -/
def getExpensesForTrip (stored : List RawExpense) (tripId : Str) :
    List Expense :=
  (getAllExpenses stored).filter fun e => e.tripId = tripId

/-- The localStorage contents relevant to trips and expenses. -/
structure AppStorage where
  trips : List Trip
  expenses : List RawExpense
deriving DecidableEq, Repr

/-- `deleteTrip` from storageService.ts: drop the trip, then write back all
expenses whose `tripId` differs (the write serializes the migrated
records). -/
def deleteTrip (s : AppStorage) (id : Str) : AppStorage :=
  { trips := s.trips.filter fun t => t.id ≠ id
    expenses :=
      (((getAllExpenses s.expenses).filter fun e => e.tripId ≠ id).map toRaw) }

/-- Whether `localStorage.setItem` succeeds for a given serialized expense
list, fails with a quota error, or fails otherwise. -/
inductive WriteRes where
  | ok
  | quota
  | other
deriving DecidableEq, Repr

/-- The user-visible outcome of `saveExpense`. -/
inductive SaveMsg where
  | silent
  | imageDropped
  | storageFull
  | otherError
deriving DecidableEq, Repr

/-- `saveExpense` from storageService.ts: push the record and write; on a
quota failure, retry once with `receiptImage` set to `undefined` (dropped
on serialization); a second failure or a non-quota failure leaves the
store unchanged.  The function never throws. -/
def saveExpense (writeRes : List Expense → WriteRes)
    (stored : List RawExpense) (expense : Expense) :
    List RawExpense × SaveMsg :=
  let expenses := getAllExpenses stored
  let attempt1 := expenses ++ [expense]
  match writeRes attempt1 with
  | .ok => (attempt1.map toRaw, .silent)
  | .quota =>
    let expenseNoImg : Expense := { expense with receiptImage := none }
    let attempt2 := expenses ++ [expenseNoImg]
    match writeRes attempt2 with
    | .ok => (attempt2.map toRaw, .imageDropped)
    | _ => (stored, .storageFull)
  | .other => (stored, .otherError)

end StorageLocal

namespace FirestoreStore

/-- One document of the `expenses` collection: the expense data plus the
`userId` attached on save. -/
structure ExpenseDoc where
  userId : Str
  expense : Expense
deriving DecidableEq, Repr

/-- Descending-date comparison used by the in-memory sort
`(a, b) => new Date(b.date).getTime() - new Date(a.date).getTime()`;
`getTime` is the timestamp of an ISO date string. -/
def descByDate (getTime : Str → ℤ) (a b : ExpenseDoc) : Bool :=
  decide (getTime b.expense.date ≤ getTime a.expense.date)

/-- `fetchExpensesForTrip` from the Firestore adapter: query the collection
by `tripId` and the caller's `userId`, then sort in memory newest
first. -/
def fetchExpensesForTrip (getTime : Str → ℤ) (db : List ExpenseDoc)
    (uid tripId : Str) : List ExpenseDoc :=
  (db.filter fun d => d.expense.tripId = tripId ∧ d.userId = uid).mergeSort
    (descByDate getTime)

/-- Outcome of a single Firestore document write. -/
inductive FsWriteRes where
  | ok
  | tooLarge
  | other
deriving DecidableEq, Repr

/-- The error propagated by a failing Firestore operation. -/
inductive FsError where
  | tooLarge
  | other
deriving DecidableEq, Repr

/-- `setDoc` keyed by the expense id: overwrite the document with that id,
or create it. -/
def setDocById (db : List ExpenseDoc) (d : ExpenseDoc) : List ExpenseDoc :=
  if db.any fun x => x.expense.id = d.expense.id then
    db.map fun x => if x.expense.id = d.expense.id then d else x
  else db ++ [d]

/-- `saveExpense` from the Firestore adapter: attach `userId`, write once;
on a document-too-large failure show the alert and rethrow the error; on
any other failure rethrow without the alert.  The second component records
whether the oversized-document alert was shown. -/
def saveExpense (uid newId : Str) (writeRes : FsWriteRes)
    (db : List ExpenseDoc) (expense : Expense) :
    Except FsError (List ExpenseDoc × Str) × Bool :=
  let docId := if expense.id.isEmpty then newId else expense.id
  let stored : ExpenseDoc := ⟨uid, { expense with id := docId }⟩
  match writeRes with
  | .ok => (.ok (setDocById db stored, docId), false)
  | .tooLarge => (.error .tooLarge, true)
  | .other => (.error .other, false)

end FirestoreStore

namespace Gemini

/-- The structured result of the receipt analysis
(`GeminiAnalysisResult` from src/types.ts). -/
structure GeminiAnalysisResult where
  storeName : Str
  date : Str
  totalAmount : ℚ
  currency : Str
  items : List ExpenseItem
  exchangeRateToTWD : ℚ
deriving DecidableEq, Repr

/-- The admin allow-list of geminiService.ts. -/
def ADMIN_EMAILS : List Str := ["zx4032410@gmail.com".toList]

/-- Whether the current user's email is on the allow-list. -/
def isAdminOf (email : Option Str) : Bool :=
  match email with
  | some e => ADMIN_EMAILS.contains e
  | none => false

/-- Whether the daily-limit gate blocks the call: no personal key, not an
admin, and the daily quota reached. -/
def gateBlocks (userApiKey : Option Str) (email : Option Str)
    (limitReached : Bool) : Bool :=
  userApiKey.isNone && !isAdminOf email && limitReached

/-- How the underlying model call to `generateContent` ends: it rejects,
the response has no usable text (absent or empty), the text is not valid
JSON, or it parses to a structured result. -/
inductive ModelOutcome where
  | throws
  | noText
  | badJson
  | parsed (r : GeminiAnalysisResult)
deriving DecidableEq, Repr

/-- The only error `analyzeReceipt` can raise, thrown before the model is
invoked. -/
inductive AnalyzeErr where
  | dailyLimitReached
deriving DecidableEq, Repr

/-- The fixed fallback record returned when the analysis fails
(geminiService.ts, catch branch of `analyzeReceipt`). -/
def fallbackResult (today : Str) : GeminiAnalysisResult :=
  { storeName := "未命名消費".toList
    date := today
    totalAmount := 0
    currency := "TWD".toList
    items := [{ name := "無法辨識項目".toList,
                originalName := "Unknown Item".toList }]
    exchangeRateToTWD := 1 }

/-- `analyzeReceipt` from geminiService.ts.  The boolean of the result
records whether the shared-key usage counter was incremented (it is bumped
after the text check and before JSON parsing, so a JSON failure still
counts). -/
def analyzeReceipt (userApiKey : Option Str) (email : Option Str)
    (limitReached : Bool) (today : Str) (outcome : ModelOutcome) :
    Except AnalyzeErr (GeminiAnalysisResult × Bool) :=
  if gateBlocks userApiKey email limitReached then .error .dailyLimitReached
  else
    match outcome with
    | .parsed r => .ok (r, userApiKey.isNone && !isAdminOf email)
    | .badJson => .ok (fallbackResult today,
        userApiKey.isNone && !isAdminOf email)
    | _ => .ok (fallbackResult today, false)

/-- One entry of the exchange-rate cache: a rate and the calendar date it
was fetched (geminiService.ts `RateCache`). -/
structure RateEntry where
  rate : ℚ
  date : Str
deriving DecidableEq, Repr

/-- The persisted rate cache, keyed by (upper-cased) currency code. -/
abbrev RateCache := List (Str × RateEntry)

/-- `getRateFromCache` from geminiService.ts: the cached rate counts only
when its date is today's local calendar date. -/
def getRateFromCache (cache : RateCache) (today : Str) (currency : Str) :
    Option ℚ :=
  match cache.lookup currency with
  | some entry => if entry.date = today then some entry.rate else none
  | none => none

/-- `saveRateToCache` from geminiService.ts: bind the currency to the rate
dated today, replacing any previous binding.  The body is wrapped in
try/catch and a failing `localStorage.setItem` is swallowed
(`console.error` only), leaving the stored cache unchanged; `writeOk`
says whether the write succeeds. -/
def saveRateToCache (writeOk : Bool) (cache : RateCache) (today : Str)
    (currency : Str) (rate : ℚ) : RateCache :=
  if writeOk then (currency, ⟨rate, today⟩) :: cache.eraseP fun p => p.1 = currency
  else cache

/-- The regex `/[\d.]+/`: characters a numeric token consists of. -/
def isNumChar (c : Char) : Bool := c.isDigit || c = '.'

/-- `text.match(/[\d.]+/)`: the first maximal run of digits and dots. -/
def firstNumToken (s : Str) : Option Str :=
  match s.dropWhile fun c => !isNumChar c with
  | [] => none
  | c :: rest => some ((c :: rest).takeWhile isNumChar)

/-- Value of a digit string. -/
def digitsVal (l : Str) : ℕ :=
  l.foldl (fun acc c => 10 * acc + (c.toNat - '0'.toNat)) 0

/-- JavaScript `parseFloat` restricted to a token of digits and dots:
optional integer digits, an optional dot with fractional digits, stopping
at a second dot; `none` models `NaN` (no digits at all). -/
def parseFloatTok (s : Str) : Option ℚ :=
  let intPart := s.takeWhile (·.isDigit)
  match s.dropWhile (·.isDigit) with
  | '.' :: rest2 =>
    let fracDigits := rest2.takeWhile (·.isDigit)
    if intPart.isEmpty && fracDigits.isEmpty then none
    else some ((digitsVal intPart : ℚ) +
      (digitsVal fracDigits : ℚ) / 10 ^ fracDigits.length)
  | _ => if intPart.isEmpty then none else some (digitsVal intPart)

/-- The provenance tag of a returned exchange rate, one value per return
point of `fetchExchangeRate` (`'Default'`, `'Cache (Today)'`,
`'Google Search'`, `'Failed'`, `'Error'`). -/
inductive RateSource where
  | default
  | cacheToday
  | googleSearch
  | failed
  | error
deriving DecidableEq, Repr

/-- How the external search-grounded lookup ends: the call rejects, or it
resolves with an optional response text. -/
inductive LookupOutcome where
  | throws
  | ok (text : Option Str)
deriving DecidableEq, Repr

/-- `fetchExchangeRate` from geminiService.ts, with the cache state passed
explicitly.  Returns the `(rate, source)` result, the cache after the
call, and whether the external lookup was invoked; `writeOk` is whether a
cache write performed by this call would succeed (see
`saveRateToCache`). -/
def fetchExchangeRate (writeOk : Bool) (cache : RateCache) (today : Str)
    (lookup : LookupOutcome) (currency : Str) :
    (ℚ × RateSource) × RateCache × Bool :=
  let cur := currency.map Char.toUpper
  if cur = "TWD".toList then ((1, .default), cache, false)
  else
    match getRateFromCache cache today cur with
    | some r => ((r, .cacheToday), cache, false)
    | none =>
      match lookup with
      | .throws => ((1, .error), cache, true)
      | .ok none => ((1, .error), cache, true)
      | .ok (some text) =>
        if text.isEmpty then ((1, .error), cache, true)
        else
          let rate := ((firstNumToken text).bind parseFloatTok).getD 0
          if 0 < rate then
            ((rate, .googleSearch),
              saveRateToCache writeOk cache today cur rate, true)
          else ((1, .failed), cache, true)

end Gemini

open AddExpense
open StorageLocal
open FirestoreStore
open Gemini

namespace AddExpense

/-- Unfolding equation for `splitOnBars` on the empty string. -/
theorem splitOnBars_nil : splitOnBars [] = [[]] := by
  rw [splitOnBars.eq_def]

/-- Unfolding equation for `splitOnBars` on a cons cell. -/
theorem splitOnBars_cons (c : Char) (rest : Str) :
    splitOnBars (c :: rest) =
      if c = '|' ∧ rest.head? = some '|' then [] :: splitOnBars rest.tail
      else headCons c (splitOnBars rest) := by
  rw [splitOnBars.eq_def]

/-- Components of a benign item text. -/
theorem goodText_spec (s : Str) (h : goodText s = true) :
    s ≠ [] ∧ hasBB s = false ∧ '\n' ∉ s ∧
      (∀ c, s.head? = some c → isWS c = false) ∧
      (∀ c, s.getLast? = some c → isWS c = false) := by
  simp only [goodText, Bool.and_eq_true, Bool.not_eq_true'] at h
  obtain ⟨⟨⟨⟨h1, h2⟩, h3⟩, h4⟩, h5⟩ := h
  refine ⟨fun hs => by simp [hs] at h1, h2, by simpa using h3,
    ?_, ?_⟩
  · intro c hc
    rw [List.headD_eq_head?, hc] at h4
    exact h4
  · intro c hc
    rw [List.getLastD_eq_getLast?, hc] at h5
    exact h5

/-- Dropping the head of a benign string keeps it free of `'||'`. -/
theorem hasBB_tail (c : Char) (rest : Str)
    (h : hasBB (c :: rest) = false) : hasBB rest = false := by
  cases rest with
  | nil => rfl
  | cons d r =>
    simp only [hasBB, Bool.or_eq_false_iff] at h
    exact h.2

/-- A string free of `'||'` never has `'|'` twice at the front. -/
theorem hasBB_head (c : Char) (rest : Str)
    (h : hasBB (c :: rest) = false) :
    ¬(c = '|' ∧ rest.head? = some '|') := by
  rintro ⟨rfl, hr⟩
  cases rest with
  | nil => simp at hr
  | cons d r =>
    simp only [List.head?_cons, Option.some.injEq] at hr
    subst hr
    simp [hasBB] at h

/-- `split('||')` on a string without the separator yields the whole
string. -/
theorem splitOnBars_eq_single (s : Str) (h : hasBB s = false) :
    splitOnBars s = [s] := by
  induction s with
  | nil => exact splitOnBars_nil
  | cons c rest ih =>
    rw [splitOnBars_cons, if_neg (hasBB_head c rest h),
      ih (hasBB_tail c rest h)]
    rfl

/-- `split('||')` on `x ++ " || " ++ y` with separator-free `x` and `y`
yields exactly the two pieces with their padding spaces. -/
theorem splitOnBars_sep (x y : Str) (hx : hasBB x = false)
    (hy : hasBB y = false) :
    splitOnBars (x ++ ' ' :: '|' :: '|' :: ' ' :: y) =
      [x ++ [' '], ' ' :: y] := by
  induction x with
  | nil =>
    rw [List.nil_append, splitOnBars_cons, if_neg (by simp)]
    rw [splitOnBars_cons, if_pos (by simp)]
    simp only [List.tail_cons]
    rw [splitOnBars_cons, if_neg (by simp), splitOnBars_eq_single y hy]
    rfl
  | cons c x ih =>
    have hnotbar : ¬(c = '|' ∧
        (x ++ ' ' :: '|' :: '|' :: ' ' :: y).head? = some '|') := by
      rintro ⟨rfl, hr⟩
      cases x with
      | nil => simp at hr
      | cons d r =>
        simp only [List.cons_append, List.head?_cons,
          Option.some.injEq] at hr
        subst hr
        simp [hasBB] at hx
    rw [List.cons_append, splitOnBars_cons, if_neg hnotbar,
      ih (hasBB_tail c x hx)]
    rfl

/-- `trimL` is the identity when the head is not whitespace. -/
theorem trimL_of_head (s : Str)
    (h : ∀ c, s.head? = some c → isWS c = false) : trimL s = s := by
  cases s with
  | nil => rfl
  | cons c t =>
    have hc := h c rfl
    simp [trimL, List.dropWhile_cons, hc]

/-- `trimR` is the identity when the last character is not whitespace. -/
theorem trimR_of_last (s : Str)
    (h : ∀ c, s.getLast? = some c → isWS c = false) : trimR s = s := by
  rw [trimR, trimL_of_head, List.reverse_reverse]
  intro c hc
  rw [List.head?_reverse] at hc
  exact h c hc

/-- `trim` is the identity on a string with no edge whitespace. -/
theorem trim_of_edges (s : Str)
    (hh : ∀ c, s.head? = some c → isWS c = false)
    (hl : ∀ c, s.getLast? = some c → isWS c = false) : trim s = s := by
  rw [trim, trimR_of_last s hl, trimL_of_head s hh]

/-- Trimming strips exactly the padding space after the left piece. -/
theorem trim_append_space (x : Str)
    (hh : ∀ c, x.head? = some c → isWS c = false)
    (hl : ∀ c, x.getLast? = some c → isWS c = false) :
    trim (x ++ [' ']) = x := by
  have hR : trimR (x ++ [' ']) = x := by
    rw [trimR, List.reverse_append]
    simp only [List.reverse_cons, List.reverse_nil, List.nil_append,
      List.singleton_append]
    rw [trimL, List.dropWhile_cons, if_pos (by rfl)]
    rw [show List.dropWhile isWS x.reverse = trimL x.reverse from rfl]
    rw [trimL_of_head x.reverse (by
      intro c hc
      rw [List.head?_reverse] at hc
      exact hl c hc), List.reverse_reverse]
  rw [trim, hR, trimL_of_head x hh]

/-- Trimming strips exactly the padding space before the right piece. -/
theorem trim_cons_space (y : Str) (hne : y ≠ [])
    (hh : ∀ c, y.head? = some c → isWS c = false)
    (hl : ∀ c, y.getLast? = some c → isWS c = false) :
    trim (' ' :: y) = y := by
  have hR : trimR (' ' :: y) = ' ' :: y := by
    apply trimR_of_last
    intro c hc
    have hd := List.getLast?_eq_getLast y hne
    rw [show (' ' :: y) = [' '] ++ y from rfl, List.getLast?_append, hd] at hc
    simp only [Option.or] at hc
    cases Option.some.inj hc
    exact hl _ hd
  rw [trim, hR, trimL, List.dropWhile_cons, if_pos (by rfl)]
  exact trimL_of_head y hh

/-- `split(sep)` on a string without the separator yields the whole
string. -/
theorem splitOnChar_eq_single (sep : Char) (s : Str) (h : sep ∉ s) :
    splitOnChar sep s = [s] := by
  induction s with
  | nil => rfl
  | cons c rest ih =>
    have hcs : ¬(c = sep) := fun hc => h (hc ▸ List.mem_cons_self c rest)
    rw [splitOnChar, if_neg hcs, ih (fun hm => h (List.mem_cons_of_mem c hm))]
    rfl

/-- `split(sep)` pulls off a separator-free prefix before a separator. -/
theorem splitOnChar_append_sep (sep : Char) (a rest : Str) (h : sep ∉ a) :
    splitOnChar sep (a ++ sep :: rest) = a :: splitOnChar sep rest := by
  induction a with
  | nil =>
    rw [List.nil_append, splitOnChar, if_pos rfl]
  | cons c a ih =>
    have hcs : ¬(c = sep) := fun hc => h (hc ▸ List.mem_cons_self c a)
    rw [List.cons_append, splitOnChar, if_neg hcs,
      ih (fun hm => h (List.mem_cons_of_mem c hm))]
    rfl

/-- The formatted line of a benign item is newline-free, trim-invariant,
non-empty, and parses back to the item. -/
theorem itemLine_spec (i : ExpenseItem)
    (hn : goodText i.name = true) (ho : goodText i.originalName = true) :
    '\n' ∉ itemLine i ∧ trim (itemLine i) = itemLine i ∧ itemLine i ≠ [] ∧
      parseLine (itemLine i) = i := by
  obtain ⟨nm, og⟩ := i
  obtain ⟨hn1, hn2, hn3, hn4, hn5⟩ := goodText_spec _ hn
  obtain ⟨ho1, ho2, ho3, ho4, ho5⟩ := goodText_spec _ ho
  by_cases heq : og = nm
  · have hline : itemLine ⟨nm, og⟩ = nm := by
      rw [itemLine, if_pos heq]
    rw [hline]
    refine ⟨hn3, trim_of_edges _ hn4 hn5, hn1, ?_⟩
    rw [parseLine, splitOnBars_eq_single _ hn2]
    show ({ originalName := trim nm, name := trim nm } : ExpenseItem) =
      ⟨nm, og⟩
    rw [trim_of_edges _ hn4 hn5, heq]
  · have hline : itemLine ⟨nm, og⟩ =
        og ++ ' ' :: '|' :: '|' :: ' ' :: nm := by
      rw [itemLine, if_neg heq]
    rw [hline]
    have hhead : ∀ c, (og ++ ' ' :: '|' :: '|' :: ' ' :: nm).head? =
        some c → isWS c = false := by
      intro c hc
      rw [List.head?_append] at hc
      cases hog : og.head? with
      | none => exact absurd (List.head?_eq_none_iff.mp hog) ho1
      | some d =>
        rw [hog] at hc
        simp only [Option.or] at hc
        cases Option.some.inj hc
        exact ho4 _ hog
    have hlast : ∀ c, (og ++ ' ' :: '|' :: '|' :: ' ' :: nm).getLast? =
        some c → isWS c = false := by
      intro c hc
      have hd := List.getLast?_eq_getLast nm hn1
      rw [show (' ' :: '|' :: '|' :: ' ' :: nm) =
          [' ', '|', '|', ' '] ++ nm from rfl, List.getLast?_append,
        List.getLast?_append, hd] at hc
      simp only [Option.or] at hc
      cases Option.some.inj hc
      exact hn5 _ hd
    refine ⟨?_, trim_of_edges _ hhead hlast, by simp [ho1], ?_⟩
    · simp only [List.mem_append, List.mem_cons, List.not_mem_nil]
      push_neg
      refine ⟨ho3, by decide, by decide, by decide, by decide, hn3⟩
    · rw [parseLine, splitOnBars_sep _ _ ho2 hn2]
      show ({ originalName := trim (og ++ [' ']),
              name := trim (' ' :: nm) } : ExpenseItem) = ⟨nm, og⟩
      rw [trim_append_space _ ho4 ho5, trim_cons_space _ hn1 hn4 hn5]

/-- Parsing the formatted text of benign items recovers the items. -/
theorem parse_format_round (items : List ExpenseItem)
    (h : ∀ i ∈ items, goodText i.name = true ∧
      goodText i.originalName = true) :
    parseStringToItems (formatItemsToString items) = items := by
  induction items with
  | nil => rfl
  | cons i rest ih =>
    obtain ⟨hni, hoi⟩ := h i (List.mem_cons_self i rest)
    have hrest : ∀ j ∈ rest, goodText j.name = true ∧
        goodText j.originalName = true :=
      fun j hj => h j (List.mem_cons_of_mem i hj)
    obtain ⟨hnl, htrim, hne, hparse⟩ := itemLine_spec i hni hoi
    have hcond : (!(trim (itemLine i)).isEmpty) = true := by
      rw [htrim]
      simpa [List.isEmpty_iff] using hne
    cases rest with
    | nil =>
      show parseStringToItems (itemLine i) = [i]
      rw [parseStringToItems, splitOnChar_eq_single _ _ hnl,
        List.filter_cons, if_pos hcond]
      simp only [List.filter_nil, List.map_cons, List.map_nil, hparse]
    | cons j rest2 =>
      have hstep : formatItemsToString (i :: j :: rest2) =
          itemLine i ++ '\n' :: formatItemsToString (j :: rest2) := rfl
      rw [hstep, parseStringToItems, splitOnChar_append_sep _ _ _ hnl,
        List.filter_cons, if_pos hcond, List.map_cons, hparse]
      exact congrArg (i :: ·) (ih hrest)

end AddExpense

namespace StorageLocal

/-- Reading back a record that was written in migrated form is the
identity. -/
theorem migrateExpense_toRaw (e : Expense) : migrateExpense (toRaw e) = e :=
  rfl

end StorageLocal

/-- Migration is the identity on a list written back in migrated form. -/
theorem getAllExpenses_map_toRaw (l : List Expense) :
    getAllExpenses (l.map toRaw) = l := by
  simp only [getAllExpenses, migrateExpenses, List.map_map]
  have : migrateExpense ∘ toRaw = id := by
    funext e
    exact migrateExpense_toRaw e
  rw [this, List.map_id]

namespace Gemini

/-- A binding saved by a successful write is found by a same-day cache
read. -/
theorem getRateFromCache_save (cache : RateCache) (today cur : Str)
    (r : ℚ) :
    getRateFromCache (saveRateToCache true cache today cur r) today cur =
      some r := by
  simp [getRateFromCache, saveRateToCache, List.lookup]

end Gemini

/-- C1: every Expense built by `handleSave` from originalAmount `a`
(invalid input coerced to 0), exchangeRate `r` and a split count `n ≥ 1`
stores `totalHome = a * r`, `myShare = totalHome / n` and
`debtOwed = totalHome - myShare`; the instance `a = 1000`, `r = 0.22`,
`n = 4` yields `totalHome = 220`, `myShare = 55`, `debtOwed = 165`. -/
theorem c1_handleSave_split_arithmetic :
    (∀ (tripId newId : Str) (initialData : Option Expense) (image : Option Str)
        (storeName : Str) (amount : AmountInput) (currency finalDateIso : Str)
        (itemsText : Str) (rate : ℚ) (isSplit : Bool) (totalPeople : ℚ),
      let e := handleSave tripId newId initialData image storeName amount
        currency finalDateIso itemsText rate isSplit totalPeople
      e.originalAmount = toNumber amount ∧
      e.exchangeRate = rate ∧
      e.totalTWD = toNumber amount * rate ∧
      e.myShareTWD = e.totalTWD / e.splitCount ∧
      e.debtAmountTWD = e.totalTWD - e.myShareTWD ∧
      1 ≤ e.splitCount) ∧
    toNumber .empty = 0 ∧ toNumber .nan = 0 ∧
    (let e := handleSave [] [] none none [] (.num 1000) "JPY".toList [] []
        (0.22 : ℚ) true 4
     e.totalTWD = 220 ∧ e.myShareTWD = 55 ∧ e.debtAmountTWD = 165) := by
  refine ⟨?_, rfl, rfl, ?_⟩
  · intro tripId newId initialData image storeName amount currency finalDateIso
      itemsText rate isSplit totalPeople
    refine ⟨rfl, rfl, rfl, rfl, rfl, ?_⟩
    simp only [handleSave]
    split
    · exact le_max_left 1 _
    · exact le_refl 1
  · refine ⟨?_, ?_, ?_⟩ <;> norm_num [handleSave, toNumber]

/-- C2: for the Expense built by `handleSave`, when the original amount is
non-negative and the rate positive, `myShare × splitCount = totalHome`
(exactly, hence within any floating-point tolerance) and
`myShare + debtOwed = totalHome`; when `splitCount = 1` additionally
`debtOwed = 0` and `myShare = totalHome` exactly. -/
theorem c2_share_debt_invariants (tripId newId : Str)
    (initialData : Option Expense) (image : Option Str) (storeName : Str)
    (amount : AmountInput) (currency finalDateIso : Str) (itemsText : Str)
    (rate : ℚ) (isSplit : Bool) (totalPeople : ℚ)
    (hamt : 0 ≤ toNumber amount) (hrate : 0 < rate) :
    let e := handleSave tripId newId initialData image storeName amount
      currency finalDateIso itemsText rate isSplit totalPeople
    e.myShareTWD * e.splitCount = e.totalTWD ∧
    e.myShareTWD + e.debtAmountTWD = e.totalTWD ∧
    (e.splitCount = 1 → e.debtAmountTWD = 0 ∧ e.myShareTWD = e.totalTWD) := by
  intro e
  have hsplit : (1 : ℚ) ≤ e.splitCount := by
    show (1 : ℚ) ≤ if isSplit then max 1 totalPeople else 1
    split
    · exact le_max_left 1 _
    · exact le_refl 1
  have hne : e.splitCount ≠ 0 := by positivity
  have hshare : e.myShareTWD = e.totalTWD / e.splitCount := rfl
  have hdebt : e.debtAmountTWD = e.totalTWD - e.myShareTWD := rfl
  refine ⟨?_, ?_, ?_⟩
  · rw [hshare, div_mul_cancel₀ _ hne]
  · rw [hdebt]; ring
  · intro h1
    rw [hdebt, hshare, h1, div_one]
    exact ⟨by ring, rfl⟩

/-- Closed instance discharging the hypotheses of
`c2_share_debt_invariants` at a concrete input. -/
theorem c2_share_debt_invariants_witness :
    ((0 : ℚ) ≤ toNumber (.num 50)) ∧ ((0 : ℚ) < 2) ∧
    (let e := handleSave [] [] none none [] (.num 50) "USD".toList [] []
        (2 : ℚ) true 4
     e.myShareTWD * e.splitCount = e.totalTWD ∧
     e.myShareTWD + e.debtAmountTWD = e.totalTWD ∧
     (e.splitCount = 1 → e.debtAmountTWD = 0 ∧ e.myShareTWD = e.totalTWD)) :=
  ⟨by norm_num [toNumber], by norm_num,
    c2_share_debt_invariants [] [] none none [] (.num 50) "USD".toList [] []
      (2 : ℚ) true 4 (by norm_num [toNumber]) (by norm_num)⟩

/-- C3: a persisted Expense whose `items` field is a non-empty list of bare
strings is upgraded on read: each string `s` becomes the pair
`{name := s, originalName := s}` and every other field is unchanged; the
expense-fetch operation returns exactly the migrated records of the trip,
and `["Coffee", "Tea"]` migrates to the two equal-field pairs. -/
theorem c3_legacy_items_migration :
    (∀ (r : RawExpense) (l : List Str), r.items = .strs l → l ≠ [] →
      (migrateExpense r).items =
          (l.map fun s => { name := s, originalName := s : ExpenseItem }) ∧
        (migrateExpense r).id = r.id ∧
        (migrateExpense r).tripId = r.tripId ∧
        (migrateExpense r).storeName = r.storeName ∧
        (migrateExpense r).date = r.date ∧
        (migrateExpense r).originalCurrency = r.originalCurrency ∧
        (migrateExpense r).originalAmount = r.originalAmount ∧
        (migrateExpense r).exchangeRate = r.exchangeRate ∧
        (migrateExpense r).totalTWD = r.totalTWD ∧
        (migrateExpense r).paidByMe = r.paidByMe ∧
        (migrateExpense r).splitCount = r.splitCount ∧
        (migrateExpense r).myShareTWD = r.myShareTWD ∧
        (migrateExpense r).debtAmountTWD = r.debtAmountTWD ∧
        (migrateExpense r).isRepaid = r.isRepaid ∧
        (migrateExpense r).receiptImage = r.receiptImage) ∧
    (∀ (stored : List RawExpense) (tripId : Str),
      getExpensesForTrip stored tripId =
        (stored.filter fun r => r.tripId = tripId).map migrateExpense) ∧
    (RawItems.strs ["Coffee".toList, "Tea".toList]) =
      .strs ["Coffee".toList, "Tea".toList] ∧
    (∀ r : RawExpense, r.items = .strs ["Coffee".toList, "Tea".toList] →
      (migrateExpense r).items =
        [{ name := "Coffee".toList, originalName := "Coffee".toList },
         { name := "Tea".toList, originalName := "Tea".toList }]) := by
  refine ⟨?_, ?_, rfl, ?_⟩
  · intro r l hitems hne
    obtain ⟨s, rest, rfl⟩ := List.exists_cons_of_ne_nil hne
    refine ⟨?_, rfl, rfl, rfl, rfl, rfl, rfl, rfl, rfl, rfl, rfl, rfl, rfl,
      rfl, rfl⟩
    simp [migrateExpense, hitems]
  · intro stored tripId
    simp only [getExpensesForTrip, getAllExpenses, migrateExpenses]
    rw [List.filter_map]
    congr 1
  · intro r hitems
    simp [migrateExpense, hitems]

/-- Closed instance discharging the hypotheses of
`c3_legacy_items_migration` at a concrete legacy record. -/
theorem c3_legacy_items_migration_witness :
    ({ id := "e1".toList, tripId := "t1".toList, storeName := [],
       date := [], items := .strs ["Coffee".toList, "Tea".toList],
       originalCurrency := [], originalAmount := 0, exchangeRate := 1,
       totalTWD := 0, paidByMe := true, splitCount := 1, myShareTWD := 0,
       debtAmountTWD := 0, isRepaid := false,
       receiptImage := none : RawExpense }.items =
      .strs ["Coffee".toList, "Tea".toList]) ∧
    (["Coffee".toList, "Tea".toList] ≠ ([] : List Str)) ∧
    (migrateExpense
      { id := "e1".toList, tripId := "t1".toList, storeName := [],
        date := [], items := .strs ["Coffee".toList, "Tea".toList],
        originalCurrency := [], originalAmount := 0, exchangeRate := 1,
        totalTWD := 0, paidByMe := true, splitCount := 1, myShareTWD := 0,
        debtAmountTWD := 0, isRepaid := false, receiptImage := none }).items =
      [{ name := "Coffee".toList, originalName := "Coffee".toList },
       { name := "Tea".toList, originalName := "Tea".toList }] :=
  ⟨rfl, by decide,
    ((c3_legacy_items_migration.1 _ ["Coffee".toList, "Tea".toList] rfl
      (by decide)).1)⟩

/-- C4: whenever the underlying model call fails (it rejects, returns no
usable text, or returns text that does not parse), `analyzeReceipt`
returns the fixed fallback record — placeholder store name, today's date,
amount 0, home currency TWD, one placeholder item, rate 1 — as a normal
result, so the caller observes no thrown error from the analysis. -/
theorem c4_analyze_fallback_on_failure (userApiKey email : Option Str)
    (limitReached : Bool) (today : Str) (outcome : ModelOutcome)
    (hgate : gateBlocks userApiKey email limitReached = false)
    (hfail : outcome = .throws ∨ outcome = .noText ∨ outcome = .badJson) :
    (∃ b, analyzeReceipt userApiKey email limitReached today outcome =
      .ok (fallbackResult today, b)) ∧
    (fallbackResult today).totalAmount = 0 ∧
    (fallbackResult today).currency = "TWD".toList ∧
    (fallbackResult today).exchangeRateToTWD = 1 ∧
    (fallbackResult today).date = today ∧
    (fallbackResult today).items.length = 1 := by
  refine ⟨?_, rfl, rfl, rfl, rfl, rfl⟩
  have hg : ¬(gateBlocks userApiKey email limitReached = true) := by
    rw [hgate]
    exact Bool.false_ne_true
  rcases hfail with h | h | h <;> subst h
  · exact ⟨false, by rw [analyzeReceipt.eq_def, if_neg hg]⟩
  · exact ⟨false, by rw [analyzeReceipt.eq_def, if_neg hg]⟩
  · exact ⟨userApiKey.isNone && !isAdminOf email,
      by rw [analyzeReceipt.eq_def, if_neg hg]⟩

/-- Closed instance discharging the hypotheses of
`c4_analyze_fallback_on_failure` at a concrete failing call. -/
theorem c4_analyze_fallback_on_failure_witness :
    gateBlocks none none false = false ∧
    (ModelOutcome.throws = .throws ∨ ModelOutcome.throws = .noText ∨
      ModelOutcome.throws = .badJson) ∧
    ((∃ b, analyzeReceipt none none false "2024-01-01".toList .throws =
      .ok (fallbackResult "2024-01-01".toList, b)) ∧
    (fallbackResult "2024-01-01".toList).totalAmount = 0 ∧
    (fallbackResult "2024-01-01".toList).currency = "TWD".toList ∧
    (fallbackResult "2024-01-01".toList).exchangeRateToTWD = 1 ∧
    (fallbackResult "2024-01-01".toList).date = "2024-01-01".toList ∧
    (fallbackResult "2024-01-01".toList).items.length = 1) :=
  ⟨rfl, Or.inl rfl,
    c4_analyze_fallback_on_failure none none false "2024-01-01".toList
      .throws rfl (Or.inl rfl)⟩

/-- C5 counterexample: with an exhausted localStorage quota the cache write
of the first call fails silently inside `saveRateToCache`, so at a
concrete input the first call returns a positive external rate with
source `googleSearch` yet leaves the cache empty, and the same-day second
call invokes the external lookup again and does not return the cached
source. -/
theorem c5_counterexample_failed_cache_write :
    fetchExchangeRate false [] "2024-01-01".toList
      (.ok (some "21".toList)) "jpy".toList =
      (((21 : ℚ), .googleSearch), [], true) ∧
    (fetchExchangeRate false [] "2024-01-01".toList .throws
      "jpy".toList).2.2 = true ∧
    (fetchExchangeRate false [] "2024-01-01".toList .throws
      "jpy".toList).1.2 ≠ .cacheToday := by
  refine ⟨by decide, by decide, by decide⟩

/-- C5 amended: if a first same-day call for a non-home currency obtains a
positive rate from the external lookup AND the cache write succeeds
(`localStorage.setItem` does not throw inside `saveRateToCache`), a second
call on the same day returns the identical rate from the cache (source
`cacheToday`), leaves the cache unchanged, and does not invoke the
external lookup; the first call did invoke it.  When the cache write
fails, the failure is swallowed and the second call retries the lookup
(see the counterexample). -/
theorem c5_same_day_second_call_cached (cache cache1 : RateCache)
    (today : Str) (lk1 lk2 : LookupOutcome) (currency : Str) (r : ℚ)
    (invoked writeOk2 : Bool)
    (h1 : fetchExchangeRate true cache today lk1 currency =
      ((r, .googleSearch), cache1, invoked)) :
    fetchExchangeRate writeOk2 cache1 today lk2 currency =
      ((r, .cacheToday), cache1, false) ∧ invoked = true := by
  have hcur : ¬(currency.map Char.toUpper = "TWD".toList) := by
    intro htwd
    rw [fetchExchangeRate.eq_def] at h1
    simp only [htwd, if_pos] at h1
    have : RateSource.default = RateSource.googleSearch :=
      congrArg (fun p => p.1.2) h1
    exact absurd this (by simp)
  rw [fetchExchangeRate.eq_def] at h1
  simp only [if_neg hcur] at h1
  rcases hc : getRateFromCache cache today (currency.map Char.toUpper) with
    _ | r0
  · rw [hc] at h1
    rcases lk1 with _ | text
    · have : RateSource.error = RateSource.googleSearch :=
        congrArg (fun p => p.1.2) h1
      exact absurd this (by simp)
    · rcases text with _ | t
      · have : RateSource.error = RateSource.googleSearch :=
          congrArg (fun p => p.1.2) h1
        exact absurd this (by simp)
      · simp only at h1
        by_cases hemp : t.isEmpty
        · rw [if_pos hemp] at h1
          have : RateSource.error = RateSource.googleSearch :=
            congrArg (fun p => p.1.2) h1
          exact absurd this (by simp)
        · rw [if_neg hemp] at h1
          by_cases hrate :
            (0 : ℚ) < ((firstNumToken t).bind parseFloatTok).getD 0
          · rw [if_pos hrate] at h1
            have hr : ((firstNumToken t).bind parseFloatTok).getD 0 = r :=
              congrArg (fun p => p.1.1) h1
            have hcache : saveRateToCache true cache today
                (currency.map Char.toUpper)
                (((firstNumToken t).bind parseFloatTok).getD 0) = cache1 :=
              congrArg (fun p => p.2.1) h1
            have hinv : true = invoked := congrArg (fun p => p.2.2) h1
            rw [hr] at hcache
            refine ⟨?_, hinv.symm⟩
            rw [fetchExchangeRate.eq_def]
            simp only [if_neg hcur]
            rw [← hcache, getRateFromCache_save]
          · rw [if_neg hrate] at h1
            have : RateSource.failed = RateSource.googleSearch :=
              congrArg (fun p => p.1.2) h1
            exact absurd this (by simp)
  · rw [hc] at h1
    have : RateSource.cacheToday = RateSource.googleSearch :=
      congrArg (fun p => p.1.2) h1
    exact absurd this (by simp)

/-- Closed instance discharging the hypothesis of
`c5_same_day_second_call_cached` at a concrete first call whose lookup
answers `"21"` and whose cache write succeeds. -/
theorem c5_same_day_second_call_cached_witness :
    fetchExchangeRate true [] "2024-01-01".toList (.ok (some "21".toList))
      "jpy".toList =
      (((21 : ℚ), .googleSearch),
        [("JPY".toList, ⟨(21 : ℚ), "2024-01-01".toList⟩)], true) ∧
    fetchExchangeRate true
      [("JPY".toList, ⟨(21 : ℚ), "2024-01-01".toList⟩)]
      "2024-01-01".toList .throws "jpy".toList =
      (((21 : ℚ), .cacheToday),
        [("JPY".toList, ⟨(21 : ℚ), "2024-01-01".toList⟩)], false) :=
  ⟨by decide,
    (c5_same_day_second_call_cached []
      [("JPY".toList, ⟨(21 : ℚ), "2024-01-01".toList⟩)]
      "2024-01-01".toList (.ok (some "21".toList)) .throws "jpy".toList
      (21 : ℚ) true true (by decide)).1⟩

/-- C6 counterexample: at a concrete oversized expense, the Firestore
`saveExpense` does not retry with the image stripped — it shows the
oversized-image alert and propagates the error, so the caller observes a
hard failure and nothing is stored. -/
theorem c6_counterexample_remote_save_fails :
    FirestoreStore.saveExpense "u1".toList "n1".toList .tooLarge []
      { id := "e1".toList, tripId := "t1".toList, storeName := "s".toList,
        date := "2024-01-01".toList, items := [], originalCurrency := "TWD".toList,
        originalAmount := 1, exchangeRate := 1, totalTWD := 1, paidByMe := true,
        splitCount := 1, myShareTWD := 1, debtAmountTWD := 0, isRepaid := false,
        receiptImage := some "IMGDATA".toList } =
      (.error .tooLarge, true) := by
  rfl

/-- C6 amended: on a document-too-large failure the Firestore adapter
surfaces the warning and propagates the error without retrying; the
retry-once-with-image-omitted behaviour belongs to the localStorage
adapter, where a quota failure triggers exactly one retry with
`receiptImage` dropped, so on a successful retry the stored record has no
`receiptImage` field and the caller receives a warning instead of a
failure. -/
theorem c6_amended_save_image_fallback :
    (∀ (uid newId : Str) (db : List ExpenseDoc) (e : Expense),
      FirestoreStore.saveExpense uid newId .tooLarge db e =
        (.error .tooLarge, true)) ∧
    (∀ (writeRes : List Expense → WriteRes) (stored : List RawExpense)
        (e : Expense),
      writeRes (getAllExpenses stored ++ [e]) = .quota →
      writeRes (getAllExpenses stored ++ [{ e with receiptImage := none }]) =
        .ok →
      StorageLocal.saveExpense writeRes stored e =
        ((getAllExpenses stored ++ [{ e with receiptImage := none }]).map
          toRaw, .imageDropped) ∧
      (StorageLocal.saveExpense writeRes stored e).1.getLast? =
        some (toRaw { e with receiptImage := none }) ∧
      (toRaw { e with receiptImage := none }).receiptImage = none) := by
  refine ⟨fun uid newId db e => rfl, ?_⟩
  intro writeRes stored e h1 h2
  have hsave : StorageLocal.saveExpense writeRes stored e =
      ((getAllExpenses stored ++ [{ e with receiptImage := none }]).map
        toRaw, .imageDropped) := by
    unfold StorageLocal.saveExpense
    simp only [h1, h2]
  refine ⟨hsave, ?_, rfl⟩
  rw [hsave]
  simp [List.getLast?_append]

/-- Closed instance discharging the hypotheses of
`c6_amended_save_image_fallback` at a concrete quota-limited store. -/
theorem c6_amended_save_image_fallback_witness :
    ((fun l : List Expense =>
        if l.any fun e => e.receiptImage.isSome then WriteRes.quota
        else .ok)
      (getAllExpenses [] ++
        [{ id := "e1".toList, tripId := "t1".toList, storeName := [],
           date := [], items := [], originalCurrency := [],
           originalAmount := 0, exchangeRate := 1, totalTWD := 0,
           paidByMe := true, splitCount := 1, myShareTWD := 0,
           debtAmountTWD := 0, isRepaid := false,
           receiptImage := some "I".toList }]) = .quota) ∧
    (StorageLocal.saveExpense
      (fun l : List Expense =>
        if l.any fun e => e.receiptImage.isSome then WriteRes.quota
        else .ok)
      []
      { id := "e1".toList, tripId := "t1".toList, storeName := [],
        date := [], items := [], originalCurrency := [], originalAmount := 0,
        exchangeRate := 1, totalTWD := 0, paidByMe := true, splitCount := 1,
        myShareTWD := 0, debtAmountTWD := 0, isRepaid := false,
        receiptImage := some "I".toList }).2 = .imageDropped :=
  ⟨by decide,
    ((c6_amended_save_image_fallback.2
      (fun l : List Expense =>
        if l.any fun e => e.receiptImage.isSome then WriteRes.quota
        else .ok)
      []
      { id := "e1".toList, tripId := "t1".toList, storeName := [],
        date := [], items := [], originalCurrency := [], originalAmount := 0,
        exchangeRate := 1, totalTWD := 0, paidByMe := true, splitCount := 1,
        myShareTWD := 0, debtAmountTWD := 0, isRepaid := false,
        receiptImage := some "I".toList }
      (by decide) (by decide)).1.symm ▸ rfl)⟩

/-- C7: the expense fetch returns exactly the expenses of the given trip
and owner, in an order sorted by occurrence date descending (every element
is at least as new as each element after it, in particular each adjacent
pair). -/
theorem c7_fetch_sorted_newest_first (getTime : Str → ℤ)
    (db : List ExpenseDoc) (uid tripId : Str) :
    (fetchExpensesForTrip getTime db uid tripId).Perm
      (db.filter fun d => d.expense.tripId = tripId ∧ d.userId = uid) ∧
    (∀ d, d ∈ fetchExpensesForTrip getTime db uid tripId ↔
      d ∈ db ∧ d.expense.tripId = tripId ∧ d.userId = uid) ∧
    List.Chain' (fun a b => getTime b.expense.date ≤ getTime a.expense.date)
      (fetchExpensesForTrip getTime db uid tripId) := by
  have hperm := List.mergeSort_perm
    (db.filter fun d => d.expense.tripId = tripId ∧ d.userId = uid)
    (descByDate getTime)
  refine ⟨hperm, ?_, ?_⟩
  · intro d
    rw [fetchExpensesForTrip, hperm.mem_iff, List.mem_filter]
    simp
  · have hsorted := @List.sorted_mergeSort ExpenseDoc (descByDate getTime)
      (fun a b c hab hbc => by
        simp only [descByDate, decide_eq_true_eq] at hab hbc ⊢
        exact le_trans hbc hab)
      (fun a b => by
        simp only [descByDate, Bool.or_eq_true, decide_eq_true_eq]
        exact le_total _ _)
      (db.filter fun d => d.expense.tripId = tripId ∧ d.userId = uid)
    have hpw : List.Pairwise
        (fun a b => getTime b.expense.date ≤ getTime a.expense.date)
        (fetchExpensesForTrip getTime db uid tripId) := by
      refine hsorted.imp ?_
      intro a b hab
      simpa [descByDate] using hab
    exact hpw.chain'

/-- C8: after `deleteTrip T` the trip record is gone, every expense whose
`tripId` is `T` has been deleted (so fetching expenses for `T` yields the
empty list), and the expenses of every other trip are unchanged. -/
theorem c8_deleteTrip_cascade (s : AppStorage) (id : Str) :
    (∀ t, t ∈ (deleteTrip s id).trips ↔ t ∈ s.trips ∧ t.id ≠ id) ∧
    getExpensesForTrip (deleteTrip s id).expenses id = [] ∧
    (∀ e, e ∈ getAllExpenses (deleteTrip s id).expenses ↔
      e ∈ getAllExpenses s.expenses ∧ e.tripId ≠ id) ∧
    (∀ tid, tid ≠ id → getExpensesForTrip (deleteTrip s id).expenses tid =
      getExpensesForTrip s.expenses tid) := by
  have hall : getAllExpenses (deleteTrip s id).expenses =
      (getAllExpenses s.expenses).filter fun e => e.tripId ≠ id := by
    simp only [deleteTrip]
    exact getAllExpenses_map_toRaw _
  refine ⟨?_, ?_, ?_, ?_⟩
  · intro t
    simp [deleteTrip, List.mem_filter]
  · simp only [getExpensesForTrip, hall]
    rw [List.filter_eq_nil_iff]
    intro e he
    have := (List.mem_filter.mp he).2
    simp only [decide_eq_true_eq] at this ⊢
    exact this
  · intro e
    rw [hall]
    simp [List.mem_filter]
  · intro tid htid
    simp only [getExpensesForTrip, hall, List.filter_filter]
    apply List.filter_congr
    intro e _
    by_cases h : e.tripId = tid
    · simp [h, htid]
    · simp [h]

/-- Closed instance discharging the hypothesis of `c8_deleteTrip_cascade`
at a concrete store with two trips. -/
theorem c8_deleteTrip_cascade_witness :
    ("t2".toList ≠ "t1".toList) ∧
    (∀ tid, tid ≠ "t1".toList →
      getExpensesForTrip
        (deleteTrip { trips := [], expenses := [] } "t1".toList).expenses
        tid =
      getExpensesForTrip ([] : List RawExpense) tid) :=
  ⟨by decide,
    (c8_deleteTrip_cascade { trips := [], expenses := [] } "t1".toList).2.2.2⟩

/-- C9: when the external lookup throws or yields no positive numeric
token, `fetchExchangeRate` returns rate 1 with a `failed`/`error` source,
leaves the cache unchanged (the failure value is not cached), and a call
on the same day afterwards invokes the external lookup again. -/
theorem c9_lookup_failure_not_cached (writeOk : Bool)
    (cache cache2 : RateCache)
    (today : Str) (lk : LookupOutcome) (currency : Str) (r : ℚ)
    (src : RateSource) (invoked : Bool)
    (h : fetchExchangeRate writeOk cache today lk currency =
      ((r, src), cache2, invoked))
    (hsrc : src = .failed ∨ src = .error) :
    r = 1 ∧ cache2 = cache ∧ invoked = true ∧
    (∀ (writeOk2 : Bool) (lk2 : LookupOutcome),
      (fetchExchangeRate writeOk2 cache today lk2 currency).2.2 =
        true) := by
  have hns : src ≠ .default ∧ src ≠ .cacheToday ∧ src ≠ .googleSearch := by
    rcases hsrc with h | h <;> subst h <;> exact ⟨by simp, by simp, by simp⟩
  have hcur : ¬(currency.map Char.toUpper = "TWD".toList) := by
    intro htwd
    rw [fetchExchangeRate.eq_def] at h
    simp only [htwd, if_pos] at h
    have hd : RateSource.default = src := congrArg (fun p => p.1.2) h
    exact hns.1 hd.symm
  rw [fetchExchangeRate.eq_def] at h
  simp only [if_neg hcur] at h
  rcases hc : getRateFromCache cache today (currency.map Char.toUpper) with
    _ | r0
  case _ =>
    rw [hc] at h
    have hrest : ∀ (writeOk2 : Bool) (lk2 : LookupOutcome),
        (fetchExchangeRate writeOk2 cache today lk2 currency).2.2 =
          true := by
      intro writeOk2 lk2
      rw [fetchExchangeRate.eq_def]
      simp only [if_neg hcur, hc]
      rcases lk2 with _ | text
      · rfl
      · rcases text with _ | t
        · rfl
        · simp only
          by_cases hemp : t.isEmpty
          · rw [if_pos hemp]
          · rw [if_neg hemp]
            by_cases hrate :
              (0 : ℚ) < ((firstNumToken t).bind parseFloatTok).getD 0
            · rw [if_pos hrate]
            · rw [if_neg hrate]
    rcases lk with _ | text
    · have h1 : (1 : ℚ) = r := congrArg (fun p => p.1.1) h
      have h2 : cache = cache2 := congrArg (fun p => p.2.1) h
      have h3 : true = invoked := congrArg (fun p => p.2.2) h
      exact ⟨h1.symm, h2.symm, h3.symm, hrest⟩
    · rcases text with _ | t
      · have h1 : (1 : ℚ) = r := congrArg (fun p => p.1.1) h
        have h2 : cache = cache2 := congrArg (fun p => p.2.1) h
        have h3 : true = invoked := congrArg (fun p => p.2.2) h
        exact ⟨h1.symm, h2.symm, h3.symm, hrest⟩
      · simp only at h
        by_cases hemp : t.isEmpty
        · rw [if_pos hemp] at h
          have h1 : (1 : ℚ) = r := congrArg (fun p => p.1.1) h
          have h2 : cache = cache2 := congrArg (fun p => p.2.1) h
          have h3 : true = invoked := congrArg (fun p => p.2.2) h
          exact ⟨h1.symm, h2.symm, h3.symm, hrest⟩
        · rw [if_neg hemp] at h
          by_cases hrate :
            (0 : ℚ) < ((firstNumToken t).bind parseFloatTok).getD 0
          · rw [if_pos hrate] at h
            exact absurd (congrArg (fun p => p.1.2) h).symm hns.2.2
          · rw [if_neg hrate] at h
            have h1 : (1 : ℚ) = r := congrArg (fun p => p.1.1) h
            have h2 : cache = cache2 := congrArg (fun p => p.2.1) h
            have h3 : true = invoked := congrArg (fun p => p.2.2) h
            exact ⟨h1.symm, h2.symm, h3.symm, hrest⟩
  case _ =>
    rw [hc] at h
    exact absurd (congrArg (fun p => p.1.2) h).symm hns.2.1

/-- Closed instance discharging the hypotheses of
`c9_lookup_failure_not_cached` at a concrete failing lookup. -/
theorem c9_lookup_failure_not_cached_witness :
    fetchExchangeRate true [] "2024-01-01".toList .throws "jpy".toList =
      (((1 : ℚ), .error), [], true) ∧
    ((RateSource.error : RateSource) = .failed ∨
      (RateSource.error : RateSource) = .error) ∧
    ((1 : ℚ) = 1 ∧ ([] : RateCache) = [] ∧ true = true ∧
      (∀ (writeOk2 : Bool) (lk2 : LookupOutcome),
        (fetchExchangeRate writeOk2 [] "2024-01-01".toList lk2
          "jpy".toList).2.2 = true)) :=
  ⟨by decide, Or.inr rfl,
    c9_lookup_failure_not_cached true [] [] "2024-01-01".toList .throws
      "jpy".toList 1 .error true (by decide) (Or.inr rfl)⟩

/-- C10: for items whose fields are non-empty, free of newlines and of the
`'||'` separator, and carry no edge whitespace, parsing the formatted text
recovers exactly the original list —
`parseStringToItems (formatItemsToString items) = items`, an item with
equal fields round-tripping through a single-field line. -/
theorem c10_items_text_round_trip (items : List ExpenseItem)
    (h : ∀ i ∈ items, goodText i.name = true ∧
      goodText i.originalName = true) :
    parseStringToItems (formatItemsToString items) = items :=
  parse_format_round items h

/-- Closed instance discharging the hypothesis of
`c10_items_text_round_trip` on a two-item list with one translated and one
untranslated item. -/
theorem c10_items_text_round_trip_witness :
    (∀ i ∈ [({ name := "咖啡".toList, originalName := "Coffee".toList }
        : ExpenseItem),
       { name := "Tea".toList, originalName := "Tea".toList }],
      goodText i.name = true ∧ goodText i.originalName = true) ∧
    parseStringToItems (formatItemsToString
      [{ name := "咖啡".toList, originalName := "Coffee".toList },
       { name := "Tea".toList, originalName := "Tea".toList }]) =
      [{ name := "咖啡".toList, originalName := "Coffee".toList },
       { name := "Tea".toList, originalName := "Tea".toList }] :=
  ⟨by decide,
    c10_items_text_round_trip
      [{ name := "咖啡".toList, originalName := "Coffee".toList },
       { name := "Tea".toList, originalName := "Tea".toList }]
      (by decide)⟩
